import Mathlib

/-!
Verification of the gravity repository's loose-octree / Barnes-Hut core.

The C++ sources are embedded shallowly: `double` becomes `ℚ` (all the
arithmetic the verified claims exercise is multiplication by powers of two,
addition and comparison, which IEEE doubles perform exactly on the inputs
used here), `std::shared_ptr<Particle>` becomes a `Particle` record carrying
a numeric identity (pointer identity becomes `id` equality, a null handle
becomes `Option.none` at the API boundary — `Node::Insert` rejects null, so
tree contents are never null), and the recursive tree functions whose C++
termination argument is geometric (extents shrink at every level) take an
explicit fuel argument, returning `none` when the fuel runs out.
-/

namespace Gravity

/-- Spatial vector of `Dimensions = 3` components
(`include/gravity/geometry/Vector.h`): a fixed-length sequence of doubles,
embedded with `ℚ` components. -/
structure Vec3 where
  x : ℚ
  y : ℚ
  z : ℚ
deriving DecidableEq, Repr

namespace Vec3

/-- Element-wise addition (boost uBLAS `operator+`). -/
def add (a b : Vec3) : Vec3 := ⟨a.x + b.x, a.y + b.y, a.z + b.z⟩

/-- Element-wise subtraction (boost uBLAS `operator-`). -/
def sub (a b : Vec3) : Vec3 := ⟨a.x - b.x, a.y - b.y, a.z - b.z⟩

/-- Multiplication by a scalar (boost uBLAS `operator*`). -/
def scale (k : ℚ) (a : Vec3) : Vec3 := ⟨k * a.x, k * a.y, k * a.z⟩

/-- The zero vector; a value-initialised uBLAS bounded vector. -/
def zero : Vec3 := ⟨0, 0, 0⟩

instance : Add Vec3 := ⟨add⟩
instance : Sub Vec3 := ⟨sub⟩
instance : Zero Vec3 := ⟨zero⟩
instance : SMul ℚ Vec3 := ⟨scale⟩

theorem add_def (a b : Vec3) : a + b = ⟨a.x + b.x, a.y + b.y, a.z + b.z⟩ := rfl

theorem smul_def (k : ℚ) (a : Vec3) : k • a = ⟨k * a.x, k * a.y, k * a.z⟩ := rfl

theorem zero_def : (0 : Vec3) = ⟨0, 0, 0⟩ := rfl

theorem x_zero : (0 : Vec3).x = 0 := rfl

theorem y_zero : (0 : Vec3).y = 0 := rfl

theorem z_zero : (0 : Vec3).z = 0 := rfl

/-- Squared Euclidean norm; `ublas::norm_2` is its square root. -/
def normSq (a : Vec3) : ℚ := a.x * a.x + a.y * a.y + a.z * a.z

/-- `any_less_than(vec, scalar)` from `geometry/Vector.h`: true if any
component is strictly less than the scalar. -/
def anyLessThan (a : Vec3) (s : ℚ) : Bool :=
  decide (a.x < s) || decide (a.y < s) || decide (a.z < s)

/-- `any_less_than_or_equal_to(vec, scalar)` from `geometry/Vector.h`. -/
def anyLessThanOrEqualTo (a : Vec3) (s : ℚ) : Bool :=
  decide (a.x ≤ s) || decide (a.y ≤ s) || decide (a.z ≤ s)

end Vec3

/-- Orthant (`include/gravity/geometry/Orthant.h`): a 3-bit index where bit
`i` is 0 when axis `i` is aligned (positive) and 1 when anti-aligned
(negative); `0` is the all-positive orthant. Embedded as the `std::size_t`
value of the underlying bitset. -/
def Orthant := ℕ

namespace Orthant

/-- `Orthant::IsAxisAligned(digit)`: the stored bit is the negation of the
alignment, so the axis is aligned when the bit is clear (bit extraction
written with division and remainder). -/
def isAxisAligned (q : ℕ) (digit : ℕ) : Bool := decide (q / 2 ^ digit % 2 = 0)

/-- `Orthant::Invert()`: flip all `Dimensions = 3` axis bits, i.e. the
complement within 3 bits (a `std::bitset<3>` always holds a value below 8). -/
def invert (q : ℕ) : ℕ := 7 - q % 8

/-- `Orthant::Max()`: `1 << Dimensions` orthants. -/
def maxOrthants : ℕ := 8

end Orthant

/-- Axis-aligned bounding box (`geometry/BoundingBox.cpp`): per-axis
`extents_` (half-widths) and `centre_`. -/
structure Box where
  extents : Vec3
  centre : Vec3
deriving DecidableEq, Repr

namespace Box

/-- The two-argument `BoundingBox` constructor. Its in-tree declarations
(`barneshut/BoundingBox.h`, `barneshut/Hypercube.h` — the
`geometry/BoundingBox.h` header itself is not in the tree, but the
`geometry/BoundingBox.cpp` definition is) take a centre and a full
**width** and store `extents_ = width * 0.5`. -/
def mk2 (centre width : Vec3) : Box :=
  { extents := Vec3.scale (1/2) width, centre := centre }

/-- `ValidateExtents` in `geometry/BoundingBox.cpp` throws
`std::invalid_argument` when any stored extent is `≤ 0`; this predicate is
true exactly when the construction of `mk2 centre width` would throw. -/
def mk2Throws (width : Vec3) : Bool :=
  Vec3.anyLessThanOrEqualTo (Vec3.scale (1/2) width) 0

/-- One axis of `BoundingBox::Contains(Vector const&, double)`: the loose
half-width is `extents[i] * looseness` when `looseness > 1`, and the point
fails the axis when it lies strictly outside `[centre - half, centre + half]`. -/
def axisContainsPoint (tc te p loose : ℚ) : Bool :=
  let half := if 1 < loose then te * loose else te
  !(decide (tc + half < p) || decide (p < tc - half))

/-- `BoundingBox::Contains(Vector const&, double looseness)` from
`geometry/BoundingBox.cpp` lines 61-80, with the axis loop unrolled. -/
def containsPoint (b : Box) (p : Vec3) (loose : ℚ) : Bool :=
  axisContainsPoint b.centre.x b.extents.x p.x loose &&
  axisContainsPoint b.centre.y b.extents.y p.y loose &&
  axisContainsPoint b.centre.z b.extents.z p.z loose

/-- One axis of `BoundingBox::Contains(BoundingBox const&, double)`
(`geometry/BoundingBox.cpp` lines 82-106): the axis REJECTS only when the
other box's minimum is outside `[this_min, this_max]` AND its maximum is
outside as well (the source combines the two out-of-range tests with `&&`). -/
def axisContainsBox (tc te oc oe loose : ℚ) : Bool :=
  let half := if 1 < loose then te * loose else te
  let omin := oc - oe
  let omax := oc + oe
  let tmin := tc - half
  let tmax := tc + half
  !((decide (tmax < omin) || decide (omin < tmin)) &&
    (decide (tmax < omax) || decide (omax < tmin)))

/-- `BoundingBox::Contains(BoundingBox const&, double looseness)` with the
axis loop unrolled. -/
def containsBox (b other : Box) (loose : ℚ) : Bool :=
  axisContainsBox b.centre.x b.extents.x other.centre.x other.extents.x loose &&
  axisContainsBox b.centre.y b.extents.y other.centre.y other.extents.y loose &&
  axisContainsBox b.centre.z b.extents.z other.centre.z other.extents.z loose

/-- `BoundingBox::Orthant(Vector const&)`: axis `i` is aligned (bit clear)
when `point[i] >= centre[i]`, so the stored bit is set when `point[i] <
centre[i]`. -/
def orthantOf (b : Box) (p : Vec3) : ℕ :=
  (if p.x < b.centre.x then 1 else 0) +
  (if p.y < b.centre.y then 2 else 0) +
  (if p.z < b.centre.z then 4 else 0)

/-- `BoundingBox::ShrinkTo(Orthant)` (`geometry/BoundingBox.cpp` lines
127-145): the local `extents` is `extents_ / 2`, the centre is shifted by
that amount towards the orthant, and the pair is passed back through the
two-argument (centre, width) constructor. -/
def shrinkTo (b : Box) (q : ℕ) : Box :=
  let e := Vec3.scale (1/2) b.extents
  let c : Vec3 :=
    ⟨if Orthant.isAxisAligned q 0 then b.centre.x + e.x else b.centre.x - e.x,
     if Orthant.isAxisAligned q 1 then b.centre.y + e.y else b.centre.y - e.y,
     if Orthant.isAxisAligned q 2 then b.centre.z + e.z else b.centre.z - e.z⟩
  mk2 c e

/-- `BoundingBox::ExpandFrom(Orthant)` (`geometry/BoundingBox.cpp` lines
147-165): the local `extents` is `extents_ * 2`, the centre is shifted by
that amount away from the orthant, and the pair is passed back through the
two-argument (centre, width) constructor. -/
def expandFrom (b : Box) (q : ℕ) : Box :=
  let e := Vec3.scale 2 b.extents
  let c : Vec3 :=
    ⟨if Orthant.isAxisAligned q 0 then b.centre.x - e.x else b.centre.x + e.x,
     if Orthant.isAxisAligned q 1 then b.centre.y - e.y else b.centre.y + e.y,
     if Orthant.isAxisAligned q 2 then b.centre.z - e.z else b.centre.z + e.z⟩
  mk2 c e

end Box

/-- The specification's reading of box containment, written from the spec's
words for comparison with the source's `containsBox`: on every axis both the
other box's minimum and its maximum lie within
`[centre - half, centre + half]` where `half` is the extent scaled by
`loose` when `loose > 1`. -/
def specContainsBox (b other : Box) (loose : ℚ) : Prop :=
  (b.centre.x - (if 1 < loose then b.extents.x * loose else b.extents.x) ≤ other.centre.x - other.extents.x ∧
     other.centre.x + other.extents.x ≤ b.centre.x + (if 1 < loose then b.extents.x * loose else b.extents.x)) ∧
  (b.centre.y - (if 1 < loose then b.extents.y * loose else b.extents.y) ≤ other.centre.y - other.extents.y ∧
     other.centre.y + other.extents.y ≤ b.centre.y + (if 1 < loose then b.extents.y * loose else b.extents.y)) ∧
  (b.centre.z - (if 1 < loose then b.extents.z * loose else b.extents.z) ≤ other.centre.z - other.extents.z ∧
     other.centre.z + other.extents.z ≤ b.centre.z + (if 1 < loose then b.extents.z * loose else b.extents.z))

instance (b other : Box) (loose : ℚ) : Decidable (specContainsBox b other loose) := by
  unfold specContainsBox
  infer_instance

/-- A box used as the concrete failing input for the shrink/expand
round-trip property: centre at the origin, width 2 on every axis, so the
stored extents are `(1, 1, 1)`. -/
def c1Box : Box := Box.mk2 ⟨0, 0, 0⟩ ⟨2, 2, 2⟩

/-- C1: the claimed round-trips fail on the source. For the box centred at
the origin with extents `(1,1,1)` and the all-positive orthant `0`,
`ShrinkTo` followed by `ExpandFrom` returns extents `(1/4,1/4,1/4)` (the
centre does round-trip), and `ExpandFrom` followed by `ShrinkTo` returns
centre `(-3/2,-3/2,-3/2)` with extents `(1/4,1/4,1/4)` — in both orders the
result differs from the original box, because `ShrinkTo`/`ExpandFrom` feed
their computed extents back through the constructor that halves its second
argument. -/
theorem shrinkTo_expandFrom_roundtrip_fails :
    ((c1Box.shrinkTo 0).expandFrom 0 ≠ c1Box ∧
      (c1Box.shrinkTo 0).expandFrom 0 =
        { extents := ⟨1/4, 1/4, 1/4⟩, centre := ⟨0, 0, 0⟩ }) ∧
    ((c1Box.expandFrom 0).shrinkTo 0 ≠ c1Box ∧
      (c1Box.expandFrom 0).shrinkTo 0 =
        { extents := ⟨1/4, 1/4, 1/4⟩, centre := ⟨-(3/2), -(3/2), -(3/2)⟩ }) := by
  norm_num [c1Box, Box.mk2, Box.shrinkTo, Box.expandFrom, Vec3.scale,
    Orthant.isAxisAligned]

/-- The outer box of the C7 counterexample: `[-1, 1]` on every axis. -/
def c7This : Box := Box.mk2 ⟨0, 0, 0⟩ ⟨2, 2, 2⟩

/-- The inner box of the C7 counterexample: `[-1/2, 3/2]` on the x axis and
`[-1, 1]` on y and z, so its x-maximum lies outside `c7This`. -/
def c7Other : Box := Box.mk2 ⟨1/2, 0, 0⟩ ⟨2, 2, 2⟩

/-- C7 counterexample: `Contains` returns `true` for a box whose x-maximum
`3/2` lies outside `[-1, 1]`, so the claimed "both the minimum and the
maximum lie within" characterisation is false: the source accepts an axis
when EITHER extreme is in range. -/
theorem containsBox_not_both_extremes :
    c7This.containsBox c7Other 1 = true ∧ ¬ specContainsBox c7This c7Other 1 := by
  norm_num [c7This, c7Other, Box.containsBox, Box.axisContainsBox, Box.mk2,
    Vec3.scale, specContainsBox]

/-- C7 (amended): `Contains(box, loose)` returns true iff on every axis at
least one of the other box's minimum and maximum lies within
`[centre - half, centre + half]`, where `half` is the extent scaled by
`loose` when `loose > 1`. -/
theorem containsBox_iff_some_extreme_within (b other : Box) (loose : ℚ) :
    b.containsBox other loose = true ↔
      ((b.centre.x - (if 1 < loose then b.extents.x * loose else b.extents.x) ≤ other.centre.x - other.extents.x ∧
          other.centre.x - other.extents.x ≤ b.centre.x + (if 1 < loose then b.extents.x * loose else b.extents.x)) ∨
        (b.centre.x - (if 1 < loose then b.extents.x * loose else b.extents.x) ≤ other.centre.x + other.extents.x ∧
          other.centre.x + other.extents.x ≤ b.centre.x + (if 1 < loose then b.extents.x * loose else b.extents.x))) ∧
      ((b.centre.y - (if 1 < loose then b.extents.y * loose else b.extents.y) ≤ other.centre.y - other.extents.y ∧
          other.centre.y - other.extents.y ≤ b.centre.y + (if 1 < loose then b.extents.y * loose else b.extents.y)) ∨
        (b.centre.y - (if 1 < loose then b.extents.y * loose else b.extents.y) ≤ other.centre.y + other.extents.y ∧
          other.centre.y + other.extents.y ≤ b.centre.y + (if 1 < loose then b.extents.y * loose else b.extents.y))) ∧
      ((b.centre.z - (if 1 < loose then b.extents.z * loose else b.extents.z) ≤ other.centre.z - other.extents.z ∧
          other.centre.z - other.extents.z ≤ b.centre.z + (if 1 < loose then b.extents.z * loose else b.extents.z)) ∨
        (b.centre.z - (if 1 < loose then b.extents.z * loose else b.extents.z) ≤ other.centre.z + other.extents.z ∧
          other.centre.z + other.extents.z ≤ b.centre.z + (if 1 < loose then b.extents.z * loose else b.extents.z))) := by
  simp only [Box.containsBox, Box.axisContainsBox, Bool.and_eq_true,
    Bool.not_eq_true', Bool.and_eq_false_iff, Bool.or_eq_false_iff,
    decide_eq_false_iff_not, not_lt]
  constructor
  · rintro ⟨⟨hx, hy⟩, hz⟩
    refine ⟨?_, ?_, ?_⟩
    · rcases hx with h | h
      · exact Or.inl ⟨h.2, h.1⟩
      · exact Or.inr ⟨h.2, h.1⟩
    · rcases hy with h | h
      · exact Or.inl ⟨h.2, h.1⟩
      · exact Or.inr ⟨h.2, h.1⟩
    · rcases hz with h | h
      · exact Or.inl ⟨h.2, h.1⟩
      · exact Or.inr ⟨h.2, h.1⟩
  · rintro ⟨hx, hy, hz⟩
    refine ⟨⟨?_, ?_⟩, ?_⟩
    · rcases hx with h | h
      · exact Or.inl ⟨h.2, h.1⟩
      · exact Or.inr ⟨h.2, h.1⟩
    · rcases hy with h | h
      · exact Or.inl ⟨h.2, h.1⟩
      · exact Or.inr ⟨h.2, h.1⟩
    · rcases hz with h | h
      · exact Or.inl ⟨h.2, h.1⟩
      · exact Or.inr ⟨h.2, h.1⟩

/-- Particle (`include/gravity/Particle.h`): mass, displacement and
per-axis radii (velocity and acceleration are never read by the verified
operations and are omitted). The C++ code handles particles through
`std::shared_ptr`; `id` stands for the pointer identity of the handle, so
C++ pointer equality becomes `id` equality. A null handle is `Option.none`
at the API boundary; `Node::Insert` is the only way particles enter a tree
and it rejects null, so tree contents are plain `Particle` records. -/
structure Particle where
  id : ℕ
  mass : ℚ
  displacement : Vec3
  radius : Vec3
deriving DecidableEq, Repr

/-- `Particle::Bounds()`: the particle's bounding box stores the radii as
its extents and the displacement as its centre (the `Radius` setter passes
the radii to `BoundingBox::Extents`, which stores them unscaled). -/
def Particle.bounds (p : Particle) : Box :=
  { extents := p.radius, centre := p.displacement }

/-- A node of the dynamic octree (`include/gravity/Node.h`): bounds, a
contiguous vector of children (empty for a leaf, else one per orthant) and
the list of particles held directly at this node. -/
inductive Node where
  | mk (bounds : Box) (children : List Node) (particles : List Particle)

namespace Node

/-- `Node::Bounds()`. -/
def bounds : Node → Box
  | .mk b _ _ => b

/-- `Node::Children()`. -/
def children : Node → List Node
  | .mk _ cs _ => cs

/-- `Node::Particles()`. -/
def particles : Node → List Particle
  | .mk _ _ ps => ps

/-- `Node::IsLeaf()`: no children. -/
def isLeaf (n : Node) : Bool := n.children.isEmpty

/-- `Node::IsMinWidth(min_width)`: any extent is `≤ min_width / 2`. -/
def isMinWidth (n : Node) (minW : ℚ) : Bool :=
  Vec3.anyLessThanOrEqualTo n.bounds.extents (minW / 2)

/-- `Node::ShouldMerge(capacity)`: the particle count of this node plus the
direct particle counts of its children (grandchildren are NOT counted) is at
most the capacity. The source accumulates with an early `return false` once
the count exceeds the capacity; the net result is this comparison of the
total. -/
def shouldMerge (n : Node) (cap : ℕ) : Bool :=
  decide (n.particles.length +
    (n.children.map (fun c => c.particles.length)).sum ≤ cap)

/-- `Node::Merge()`: splice each child's DIRECT particle list, in child
order, onto the end of this node's list, then clear the children vector.
Particles held below the children (grandchildren and deeper) are not
visited; clearing the vector destroys them. -/
def merge (n : Node) : Node :=
  .mk n.bounds [] (n.particles ++ (n.children.map particles).flatten)

/-- The children allocated by `Node::Branch`: `reserve(Orthant::Max())`
then one child per orthant index with bounds `bounds_.ShrinkTo(i)`
(`children_.capacity()` is exactly 8 after reserving 8 on an empty vector). -/
def mkChildren (b : Box) : List Node :=
  [.mk (b.shrinkTo 0) [] [], .mk (b.shrinkTo 1) [] [],
   .mk (b.shrinkTo 2) [] [], .mk (b.shrinkTo 3) [] [],
   .mk (b.shrinkTo 4) [] [], .mk (b.shrinkTo 5) [] [],
   .mk (b.shrinkTo 6) [] [], .mk (b.shrinkTo 7) [] []]

/-- The orthant index used by `Node::NearestChild`:
`bounds_.Orthant(particle->Bounds().Centre())`. -/
def nearestIdx (b : Box) (p : Particle) : ℕ := b.orthantOf p.bounds.centre

mutual

/-- `Node::Empty()`: no direct particles and all children empty. -/
def emptyB : Node → Bool
  | .mk _ cs ps => ps.isEmpty && emptyListB cs

/-- The `std::ranges::all_of` over the children in `Node::Empty`. -/
def emptyListB : List Node → Bool
  | [] => true
  | c :: rest => emptyB c && emptyListB rest

end

mutual

/-- All particles reachable in the subtree: this node's direct list, then
each child's, in child order (the enumeration used to state reachability). -/
def allParticles : Node → List Particle
  | .mk _ cs ps => ps ++ allParticlesL cs

/-- Concatenation of `allParticles` over a list of children. -/
def allParticlesL : List Node → List Particle
  | [] => []
  | c :: rest => allParticles c ++ allParticlesL rest

end

mutual

/-- `Node::Insert` (`src/Node.cpp` lines 11-41) for a non-null particle,
with explicit fuel standing for the source's geometric termination
argument: reject when the particle's bounds are not loosely contained;
append at a leaf below capacity or at minimum width; otherwise branch (when
still a leaf) and try the nearest child, keeping the particle here when the
child refuses it. -/
def insertF : ℕ → Node → Particle → ℚ → ℚ → ℕ → Option (Node × Bool)
  | 0, _, _, _, _, _ => none
  | fuel+1, n, p, loose, minW, cap =>
    if n.bounds.containsBox p.bounds loose then
      match n with
      | .mk b cs ps =>
        if cs.isEmpty then
          if decide (ps.length < cap) || Vec3.anyLessThanOrEqualTo b.extents (minW / 2) then
            some (.mk b cs (ps ++ [p]), true)
          else
            match branchPush fuel b loose minW cap ps (mkChildren b) with
            | none => none
            | some (cs1, ps1) => insertNearest fuel b cs1 ps1 p loose minW cap
        else insertNearest fuel b cs ps p loose minW cap
    else some (n, false)
termination_by fuel _ _ _ _ _ => (fuel, 0)

/-- The common tail of `Node::Insert`: try the nearest child; on failure
the particle stays in this node's list (a failed child insert does not
mutate the child). `cs[idx]?` is `children_.at(orthant)`; reachable trees
always have 8 children here, and an out-of-range index is folded into the
`none` failure marker. -/
def insertNearest (fuel : ℕ) (b : Box) (cs : List Node) (ps : List Particle)
    (p : Particle) (loose minW : ℚ) (cap : ℕ) : Option (Node × Bool) :=
  match cs[nearestIdx b p]? with
  | none => none
  | some child =>
    match insertF fuel child p loose minW cap with
    | none => none
    | some (child', ok) =>
      if ok then some (.mk b (cs.set (nearestIdx b p) child') ps, true)
      else some (.mk b cs (ps ++ [p]), true)
termination_by (fuel, 1)

/-- The particle loop of `Node::Branch` (`src/Node.cpp` lines 273-285):
walk the current particles in order, push each into its nearest child,
erase it from this node on success and keep it (in order) on failure. -/
def branchPush : ℕ → Box → ℚ → ℚ → ℕ → List Particle → List Node →
    Option (List Node × List Particle)
  | _, _, _, _, _, [], cs => some (cs, [])
  | fuel, b, loose, minW, cap, q :: rest, cs =>
    match cs[nearestIdx b q]? with
    | none => none
    | some child =>
      match insertF fuel child q loose minW cap with
      | none => none
      | some (child', ok) =>
        let cs' := if ok then cs.set (nearestIdx b q) child' else cs
        match branchPush fuel b loose minW cap rest cs' with
        | none => none
        | some (cs2, kept) => some (cs2, if ok then kept else q :: kept)
termination_by fuel _ _ _ _ ps _ => (fuel, ps.length + 2)

end

/-- `Node::Remove` (`src/Node.cpp` lines 43-73) for a non-null particle:
erase every handle equal to it from this node's direct list
(`std::list::remove`); when nothing was erased, fail at a leaf, else
recurse into the nearest child and, on success, `Merge` when
`ShouldMerge(capacity)` holds. -/
def removeF : ℕ → Node → Particle → ℕ → Option (Node × Bool)
  | 0, _, _, _ => none
  | fuel+1, n, p, cap =>
    if n.particles.any (fun q => decide (q.id = p.id)) then
      some (.mk n.bounds n.children
        (n.particles.filter (fun q => decide (q.id ≠ p.id))), true)
    else if n.children.isEmpty then
      some (n, false)
    else
      match n.children[nearestIdx n.bounds p]? with
      | none => none
      | some child =>
        match removeF fuel child p cap with
        | none => none
        | some (child', ok) =>
          let n' : Node := .mk n.bounds (n.children.set (nearestIdx n.bounds p) child') n.particles
          if ok then
            if n'.shouldMerge cap then some (n'.merge, true) else some (n', true)
          else some (n', false)

/-- The loop body of `Node::OneChildHasParticles`: true, with the recorded
orthant, exactly when precisely one child subtree is non-empty. -/
def oneChildWithParticles (n : Node) : Option ℕ :=
  match (List.range n.children.length).filter
      (fun i => match n.children[i]? with
                | some c => !c.emptyB
                | none => false) with
  | [i] => some i
  | _ => none

/-- `Node::Shrink` (`src/Node.cpp` lines 85-120): fails on a leaf or a node
with direct particles, or unless exactly one child subtree holds particles;
otherwise the double swap makes this node become that child wholesale. -/
def shrinkStep (n : Node) : Option Node :=
  if n.children.isEmpty || !n.particles.isEmpty then none
  else
    match n.oneChildWithParticles with
    | none => none
    | some i => n.children[i]?

/-- `Node::Grow` (`src/Node.cpp` lines 122-156): expand the bounds away
from the inverted orthant of the point. A leaf just replaces its bounds; a
branch node is swapped into the slot of the inverted orthant of a freshly
branched root carrying the expanded bounds. -/
def grow (n : Node) (point : Vec3) : Node :=
  let q := Orthant.invert (n.bounds.orthantOf point)
  if n.children.isEmpty then
    .mk (n.bounds.expandFrom q) [] n.particles
  else
    let nb := n.bounds.expandFrom q
    .mk nb ((mkChildren nb).set q n) []

end Node

/-- The root wrapper (`include/gravity/Octree.h`): the root node, the tree
parameters, the growth and shrink limits and the signed `resized_` counter. -/
structure Octree where
  root : Node
  looseness : ℚ
  minWidth : ℚ
  capacity : ℕ
  growthLimit : ℤ
  shrinkLimit : ℤ
  resized : ℤ

namespace Octree

/-- The `std::invalid_argument` messages the `Octree` constructor
(`src/Octree.cpp` lines 5-42) builds: each guard CONSTRUCTS the exception
object as a discarded temporary — the `throw` keyword is absent — so these
values are created and immediately destroyed. Note the guards themselves:
`min_width < 0.0` (not `≤ 0`) and `node_capacity <= 0` on an unsigned
(equivalent to `= 0`). -/
def ctorDiscardedErrors (loose minW : ℚ) (cap : ℕ) (growth shrink : ℤ) :
    List String :=
  (if loose < 1 then ["Looseness cannot be less than 1.0"] else []) ++
  (if minW < 0 then ["Minimum width cannot be less than 0.0"] else []) ++
  (if cap = 0 then ["Node capacity cannot be less than or equal to 0"] else []) ++
  (if growth < 0 then ["Growth limit cannot be less than 0"] else []) ++
  (if shrink < 0 then ["Shrink limit cannot be less than 0"] else [])

/-- The `Octree` constructor. Because none of its guards actually throws
(see `ctorDiscardedErrors`), construction always succeeds, for every
argument combination; the `Except` result is the honest embedding of a
constructor that may throw, and it never returns `.error`. -/
def construct (bounds : Box) (loose minW : ℚ) (cap : ℕ)
    (growth shrink : ℤ) : Except String Octree :=
  Except.ok
    { root := .mk bounds [] [], looseness := loose, minWidth := minW,
      capacity := cap, growthLimit := growth, shrinkLimit := shrink,
      resized := 0 }

/-- The shrink loop shared by `Octree::Insert` and `Octree::Remove`
(`for (; resized_ > -shrink_limit_; --resized_) if (!root_.Shrink()) break;`).
The iteration count `k` is passed as `(resized + shrinkLimit).toNat`, the
exact number of decrements the guard allows. -/
def shrinkLoop : ℕ → Node → ℤ → ℤ → Node × ℤ
  | 0, root, resized, _ => (root, resized)
  | k+1, root, resized, shrinkLimit =>
    if resized > -shrinkLimit then
      match root.shrinkStep with
      | some root' => shrinkLoop k root' (resized - 1) shrinkLimit
      | none => (root, resized)
    else (root, resized)

/-- Result of the growth loop of `Octree::Insert`. -/
inductive GrowResult where
  | success (root : Node) (resized : ℤ)
  | exhausted (root : Node) (resized : ℤ)
  | nullDeref (root : Node) (resized : ℤ)
  | fuelOut

/-- The `while (resized_ < growth_limit_)` loop of `Octree::Insert`
(`src/Octree.cpp` lines 51-61). The loop body evaluates
`particle->Displacement()` WITHOUT a null check, so entering the loop with
a null handle dereferences null; `k` is `(growthLimit - resized).toNat`,
the exact number of iterations the guard allows. -/
def growLoop : ℕ → Node → ℤ → Option Particle → ℚ → ℚ → ℕ → ℕ → GrowResult
  | 0, root, resized, _, _, _, _, _ => .exhausted root resized
  | k+1, root, resized, op, loose, minW, cap, fuel =>
    match op with
    | none => .nullDeref root resized
    | some p =>
      let root1 := root.grow p.displacement
      match Node.insertF fuel root1 p loose minW cap with
      | none => .fuelOut
      | some (root2, true) => .success root2 (resized + 1)
      | some (root2, false) => growLoop k root2 (resized + 1) op loose minW cap fuel

/-- Outcome of `Octree::Insert`: a result and new state, a null-pointer
dereference (undefined behaviour in the source), or fuel exhaustion of the
embedding. -/
inductive InsertOutcome where
  | ok (tree : Octree) (inserted : Bool)
  | nullDeref (tree : Octree)
  | fuelOut

/-- `Octree::Insert` (`src/Octree.cpp` lines 44-72): try the root insert
(`Node::Insert` rejects a null handle), then grow up to the growth limit
retrying after each growth, then on failure shrink back while possible and
report failure. -/
def insertO (t : Octree) (op : Option Particle) (fuel : ℕ) : InsertOutcome :=
  let rootIns := match op with
    | none => some (t.root, false)
    | some p => Node.insertF fuel t.root p t.looseness t.minWidth t.capacity
  match rootIns with
  | none => .fuelOut
  | some (root1, true) => .ok { t with root := root1 } true
  | some (root1, false) =>
    match growLoop (t.growthLimit - t.resized).toNat root1 t.resized op
        t.looseness t.minWidth t.capacity fuel with
    | .fuelOut => .fuelOut
    | .nullDeref root2 resized2 =>
      .nullDeref { t with root := root2, resized := resized2 }
    | .success root2 resized2 =>
      .ok { t with root := root2, resized := resized2 } true
    | .exhausted root2 resized2 =>
      let s := shrinkLoop (resized2 + t.shrinkLimit).toNat root2 resized2 t.shrinkLimit
      .ok { t with root := s.1, resized := s.2 } false

/-- `Octree::Remove` (`src/Octree.cpp` lines 74-90): delegate to the root
(`Node::Remove` rejects a null handle with no dereference), then on success
shrink opportunistically. -/
def removeO (t : Octree) (op : Option Particle) (fuel : ℕ) :
    Option (Octree × Bool) :=
  let r := match op with
    | none => some (t.root, false)
    | some p => Node.removeF fuel t.root p t.capacity
  match r with
  | none => none
  | some (root1, false) => some ({ t with root := root1 }, false)
  | some (root1, true) =>
    let s := shrinkLoop (t.resized + t.shrinkLimit).toNat root1 t.resized t.shrinkLimit
    some ({ t with root := s.1, resized := s.2 }, true)

end Octree

/-- Negation, element-wise. -/
def Vec3.neg (a : Vec3) : Vec3 := ⟨-a.x, -a.y, -a.z⟩

instance : Neg Vec3 := ⟨Vec3.neg⟩

theorem Vec3.ext3 {a b : Vec3} (hx : a.x = b.x) (hy : a.y = b.y)
    (hz : a.z = b.z) : a = b := by
  cases a; cases b
  simp only [Vec3.mk.injEq]
  exact ⟨hx, hy, hz⟩

theorem Vec3.neg_def (a : Vec3) : -a = ⟨-a.x, -a.y, -a.z⟩ := rfl

theorem Vec3.sub_def (a b : Vec3) : a - b = ⟨a.x - b.x, a.y - b.y, a.z - b.z⟩ := rfl

instance : AddCommGroup Vec3 where
  add := (· + ·)
  zero := 0
  neg := Neg.neg
  sub := (· - ·)
  nsmul := nsmulRec
  zsmul := zsmulRec
  add_assoc a b c := by
    apply Vec3.ext3 <;> simp only [Vec3.add_def] <;> ring
  zero_add a := by
    apply Vec3.ext3 <;> simp only [Vec3.add_def, Vec3.zero_def] <;> ring
  add_zero a := by
    apply Vec3.ext3 <;> simp only [Vec3.add_def, Vec3.zero_def] <;> ring
  add_comm a b := by
    apply Vec3.ext3 <;> simp only [Vec3.add_def] <;> ring
  neg_add_cancel a := by
    apply Vec3.ext3 <;> simp only [Vec3.add_def, Vec3.neg_def, Vec3.zero_def] <;> ring
  sub_eq_add_neg a b := by
    apply Vec3.ext3 <;> simp only [Vec3.add_def, Vec3.neg_def, Vec3.sub_def] <;> ring

instance : Module ℚ Vec3 where
  smul := (· • ·)
  one_smul a := by
    apply Vec3.ext3 <;> simp only [Vec3.smul_def] <;> ring
  mul_smul k l a := by
    apply Vec3.ext3 <;> simp only [Vec3.smul_def] <;> ring
  smul_zero k := by
    apply Vec3.ext3 <;> simp only [Vec3.smul_def, Vec3.zero_def] <;> ring
  smul_add k a b := by
    apply Vec3.ext3 <;> simp only [Vec3.smul_def, Vec3.add_def] <;> ring
  add_smul k l a := by
    apply Vec3.ext3 <;> simp only [Vec3.smul_def, Vec3.add_def] <;> ring
  zero_smul a := by
    apply Vec3.ext3 <;> simp only [Vec3.smul_def, Vec3.zero_def] <;> ring

/-- `MassCalculator::PointMass`: total mass and centre of mass. -/
structure PointMass where
  mass : ℚ
  displacement : Vec3
deriving DecidableEq, Repr

namespace Node

mutual

/-- `MassCalculator::Calculate(octree, point_mass)` from
`src/MassCalculator.cpp` lines 91-112: accumulate each child aggregate's
`(mass, mass * displacement)` and each direct particle's, then divide the
accumulated displacement by the total mass when that is non-zero. The
concurrent cache (`FindOrCalculate`) only memoises this recursion, so the
sequential embedding is the recursion itself. -/
def pointMass : Node → PointMass
  | .mk _ cs ps =>
    let acc1 := pointMassChildren cs ⟨0, 0⟩
    let acc2 := ps.foldl
      (fun acc q => ⟨acc.mass + q.mass, acc.displacement + q.mass • q.displacement⟩) acc1
    if acc2.mass ≠ 0 then ⟨acc2.mass, (1 / acc2.mass) • acc2.displacement⟩ else acc2

/-- The children loop of `MassCalculator::Calculate`. -/
def pointMassChildren : List Node → PointMass → PointMass
  | [], acc => acc
  | c :: rest, acc =>
    let pm := pointMass c
    pointMassChildren rest ⟨acc.mass + pm.mass, acc.displacement + pm.mass • pm.displacement⟩

end

end Node

/-- Exact rational characterisation of the comparison `e < θ * sqrt s`
performed (on doubles) by `BarnesHutAlgorithm::ShouldApproximate`, valid
whenever `s ≥ 0` (it is applied to a squared norm); see
`ltMulSqrtQ_iff_real` below for the proof that it agrees with the
real-number comparison. -/
def ltMulSqrtQ (e θ s : ℚ) : Bool :=
  if 0 ≤ θ then decide (e < 0) || decide (e * e < θ * θ * s)
  else decide (e < 0) && decide (θ * θ * s < e * e)

/-- `BarnesHutAlgorithm::ShouldApproximate(point, bounds)`
(`src/BarnesHutAlgorithm.cpp` lines 111-117):
`any_less_than(bounds.Extents(), threshold * norm_2(point - centre))`,
with the per-component comparison expressed by `ltMulSqrtQ`. -/
def shouldApproximate (θ : ℚ) (point : Vec3) (b : Box) : Bool :=
  let s := Vec3.normSq (point - b.centre)
  ltMulSqrtQ b.extents.x θ s || ltMulSqrtQ b.extents.y θ s || ltMulSqrtQ b.extents.z θ s

/-- The ephemeral particle built by
`BarnesHutAlgorithm::AddAcceleration(PointMass, ...)` (lines 128-138): a
default-constructed particle whose mass and displacement are overwritten by
the aggregate's; its radii stay zero. Its handle identity (`id 0`) is fresh
and never compared against the subject. -/
def pointMassParticle (pm : PointMass) : Particle :=
  { id := 0, mass := pm.mass, displacement := pm.displacement, radius := 0 }

namespace Node

mutual

/-- `BarnesHutAlgorithm::AddAcceleration(node, particle, acceleration)`
(`src/BarnesHutAlgorithm.cpp` lines 140-161), with the force field
abstracted as the contribution `F source subject` that
`IField::AddAcceleration` adds to the accumulator: when
`ShouldApproximate` holds add the field contribution of the node's
aggregate point mass; then add each direct particle's contribution unless
it is the subject handle itself (pointer equality, embedded as `id`
equality; the source's null check is vacuous since `Node::Insert` never
stores a null handle); then recurse into every child. -/
def addAccel (F : Particle → Particle → Vec3) (θ : ℚ) :
    Node → Particle → Vec3 → Vec3
  | .mk b cs ps, p, acc =>
    let acc1 := if shouldApproximate θ p.displacement b then
        acc + F (pointMassParticle (Node.mk b cs ps).pointMass) p
      else acc
    let acc2 := ps.foldl (fun a q => if q.id ≠ p.id then a + F q p else a) acc1
    addAccelChildren F θ cs p acc2

/-- The children loop of `AddAcceleration`. -/
def addAccelChildren (F : Particle → Particle → Vec3) (θ : ℚ) :
    List Node → Particle → Vec3 → Vec3
  | [], _, acc => acc
  | c :: rest, p, acc => addAccelChildren F θ rest p (addAccel F θ c p acc)

end

end Node

/-- The state `BarnesHutAlgorithm` owns (`include/gravity/BarnesHutAlgorithm.h`):
threshold, an optional tree and an optional field (either may have been
moved out). -/
structure BarnesHut where
  threshold : ℚ
  tree : Option Octree
  field : Option (Particle → Particle → Vec3)

/-- `BarnesHutAlgorithm::Acceleration` (`src/BarnesHutAlgorithm.cpp` lines
15-29): the zero vector when the particle handle is null or the tree or
the field is absent; otherwise the walk from the root with a
zero-initialised accumulator. -/
def BarnesHut.acceleration (a : BarnesHut) (op : Option Particle) : Vec3 :=
  match op, a.tree, a.field with
  | some p, some t, some F => Node.addAccel F a.threshold t.root p 0
  | _, _, _ => 0

/-- Bounds used by the constructor and null-handle scenarios. -/
def c8Bounds : Box := Box.mk2 ⟨0, 0, 0⟩ ⟨10, 10, 10⟩

/-- C8: the `Octree` constructor never raises. Every guard in
`src/Octree.cpp` lines 18-41 constructs its `std::invalid_argument` as a
discarded temporary without `throw`, so construction succeeds even for
`looseness = 1/2 < 1`, while the corresponding error object is built and
dropped. -/
theorem octree_ctor_never_throws :
    Octree.construct c8Bounds (1/2) 1 8 10 10 =
      Except.ok { root := .mk c8Bounds [] [], looseness := 1/2, minWidth := 1,
                  capacity := 8, growthLimit := 10, shrinkLimit := 10,
                  resized := 0 } ∧
    Octree.ctorDiscardedErrors (1/2) 1 8 10 10 =
      ["Looseness cannot be less than 1.0"] := by
  refine ⟨rfl, ?_⟩
  norm_num [Octree.ctorDiscardedErrors]

/-- An octree with the default configuration (`looseness 1.25`,
`min_width 1`, `capacity 8`, growth and shrink limits 10) and an empty
root, used for the null-handle claim. -/
def c9Tree : Octree :=
  { root := .mk c8Bounds [] [], looseness := 5/4, minWidth := 1,
    capacity := 8, growthLimit := 10, shrinkLimit := 10, resized := 0 }

/-- C9: `Octree::Remove(null)` returns false without touching the tree and
`BarnesHutAlgorithm::Acceleration(null)` returns the zero vector, but
`Octree::Insert(null)` does NOT merely return false: the root insert
rejects the null handle, and because `resized < growth_limit` the growth
loop then evaluates `particle->Displacement()` on the null handle — a null
dereference. -/
theorem insert_null_handle_dereferences :
    Octree.insertO c9Tree none 10 = Octree.InsertOutcome.nullDeref c9Tree ∧
    Octree.removeO c9Tree none 10 = some (c9Tree, false) ∧
    BarnesHut.acceleration ⟨1, some c9Tree, some (fun _ q => q.displacement)⟩ none = 0 := by
  refine ⟨?_, rfl, rfl⟩
  show (match Octree.growLoop (Int.toNat ((10 : ℤ) - 0)) c9Tree.root 0 none
      c9Tree.looseness c9Tree.minWidth c9Tree.capacity 10 with
    | .fuelOut => Octree.InsertOutcome.fuelOut
    | .nullDeref root2 resized2 =>
      .nullDeref { c9Tree with root := root2, resized := resized2 }
    | .success root2 resized2 =>
      .ok { c9Tree with root := root2, resized := resized2 } true
    | .exhausted root2 resized2 =>
      let s := Octree.shrinkLoop (Int.toNat (resized2 + 10)) root2 resized2 10
      .ok { c9Tree with root := s.1, resized := s.2 } false) =
    Octree.InsertOutcome.nullDeref c9Tree
  rfl

/-- First particle of the containment-invariant scenario: a point particle
(zero radii) at `(9/10, 0, 0)`, inside the initial root box `[-1, 1]^3`. -/
def c3P1 : Particle := ⟨1, 1, ⟨9/10, 0, 0⟩, ⟨0, 0, 0⟩⟩

/-- Second particle of the containment-invariant scenario: a point particle
at `(100, 0, 0)`, far outside any box the tree is permitted to grow to. -/
def c3P2 : Particle := ⟨2, 1, ⟨100, 0, 0⟩, ⟨0, 0, 0⟩⟩

/-- The octree of the containment-invariant scenario: root box `[-1, 1]^3`,
looseness 1, min width 1, capacity 8, growth and shrink limits 1. -/
def c3T0 : Octree :=
  { root := .mk (Box.mk2 ⟨0, 0, 0⟩ ⟨2, 2, 2⟩) [] [], looseness := 1, minWidth := 1,
    capacity := 8, growthLimit := 1, shrinkLimit := 1, resized := 0 }

/-- The tree after `Insert(c3P1)` (succeeds) and `Insert(c3P2)` (fails
after growing once). -/
def c3After : Option Octree :=
  match Octree.insertO c3T0 (some c3P1) 4 with
  | .ok t1 true =>
    match Octree.insertO t1 (some c3P2) 4 with
    | .ok t2 false => some t2
    | _ => none
  | _ => none

set_option maxHeartbeats 3200000 in
/-- C3: the loose-containment invariant is broken by an Insert sequence.
After inserting `c3P1` at `(9/10,0,0)` and then attempting `c3P2` at
`(100,0,0)` (which grows the root once and fails), the root still holds
`c3P1` directly, but its bounds have become centre `(2,2,2)` with extents
`(1,1,1)` because `Grow`'s `ExpandFrom` shifted the box without enlarging
it, so `bounds.contains(c3P1.bounds, looseness)` is now false for the
root's own particle. -/
theorem insert_sequence_breaks_loose_containment :
    c3After.map (fun t =>
        (t.root.particles.map Particle.id,
          t.root.bounds,
          t.root.bounds.containsBox c3P1.bounds t.looseness,
          t.resized)) =
      some ([1], { extents := ⟨1, 1, 1⟩, centre := ⟨2, 2, 2⟩ }, false, 1) := by
  norm_num [c3After, c3T0, c3P1, c3P2, Octree.insertO, Octree.growLoop,
    Octree.shrinkLoop, Node.insertF, Node.insertNearest, Node.branchPush,
    Node.grow, Node.shrinkStep, Node.oneChildWithParticles, Node.emptyB,
    Node.emptyListB, Node.mkChildren, Node.nearestIdx, Node.isLeaf,
    Node.bounds, Node.children, Node.particles, Box.containsBox,
    Box.axisContainsBox, Box.orthantOf, Box.shrinkTo, Box.expandFrom,
    Box.mk2, Vec3.scale, Vec3.anyLessThanOrEqualTo, Vec3.zero_def,
    Orthant.isAxisAligned, Orthant.invert, Particle.bounds, Int.toNat_ofNat]

/-- First particle of the merge scenario: a point particle at `(2,2,2)`. -/
def c2P1 : Particle := ⟨1, 1, ⟨2, 2, 2⟩, ⟨0, 0, 0⟩⟩

/-- Second particle of the merge scenario: a point particle at
`(5/2, 5/2, 5/2)`, which ends up in a grandchild of the root. -/
def c2P2 : Particle := ⟨2, 1, ⟨5/2, 5/2, 5/2⟩, ⟨0, 0, 0⟩⟩

/-- The octree of the merge scenario: root box `[-4, 4]^3`, looseness 1,
min width `1/1000`, capacity 1, no growing or shrinking. -/
def c2T0 : Octree :=
  { root := .mk (Box.mk2 ⟨0, 0, 0⟩ ⟨8, 8, 8⟩) [] [], looseness := 1,
    minWidth := 1/1000, capacity := 1, growthLimit := 0, shrinkLimit := 0,
    resized := 0 }

/-- The tree after inserting `c2P1` and then `c2P2` (both succeed): the
root's child 0 holds `c2P1` directly and its own child 0 holds `c2P2`. -/
def c2AfterInserts : Option Octree :=
  match Octree.insertO c2T0 (some c2P1) 6 with
  | .ok t1 true =>
    match Octree.insertO t1 (some c2P2) 6 with
    | .ok t2 true => some t2
    | _ => none
  | _ => none

/-- The result of `Remove(c2P1)` on that tree. -/
def c2Final : Option (Octree × Bool) :=
  match c2AfterInserts with
  | some t2 => Octree.removeO t2 (some c2P1) 6
  | none => none

set_option maxHeartbeats 3200000 in
/-- C2: a merge triggered by `Remove` loses a reachable particle. After
inserting `c2P1` and `c2P2` both particles are reachable (`[1, 2]`);
removing `c2P1` succeeds, `ShouldMerge` at the root then counts only the
root's and its children's direct particles (zero — `c2P2` sits in a
grandchild), so the root merges: `Merge` splices only the children's
direct lists and drops the children vector, and `c2P2` vanishes from the
tree. -/
theorem remove_merge_drops_grandchild_particle :
    c2AfterInserts.map (fun t => t.root.allParticles.map Particle.id) =
      some [1, 2] ∧
    c2Final.map (fun tb =>
        (tb.2, tb.1.root.allParticles.map Particle.id,
          tb.1.root.children.isEmpty)) =
      some (true, [], true) := by
  constructor
  · norm_num [c2AfterInserts, c2T0, c2P1, c2P2, Octree.insertO,
      Octree.growLoop, Octree.shrinkLoop, Node.insertF, Node.insertNearest,
      Node.branchPush, Node.allParticles, Node.allParticlesL,
      Node.mkChildren, Node.nearestIdx, Node.bounds, Node.children,
      Node.particles, Box.containsBox, Box.axisContainsBox, Box.orthantOf,
      Box.shrinkTo, Box.mk2, Vec3.scale, Vec3.anyLessThanOrEqualTo,
      Orthant.isAxisAligned, Particle.bounds, Int.toNat_ofNat]
  · norm_num [c2Final, c2AfterInserts, c2T0, c2P1, c2P2, Octree.insertO,
      Octree.removeO, Octree.growLoop, Octree.shrinkLoop, Node.insertF,
      Node.insertNearest, Node.branchPush, Node.removeF, Node.merge,
      Node.shouldMerge, Node.allParticles, Node.allParticlesL,
      Node.mkChildren, Node.nearestIdx, Node.bounds, Node.children,
      Node.particles, Box.containsBox, Box.axisContainsBox, Box.orthantOf,
      Box.shrinkTo, Box.mk2, Vec3.scale, Vec3.anyLessThanOrEqualTo,
      Orthant.isAxisAligned, Particle.bounds, Int.toNat_ofNat]

/-- Structural induction for `Node` along child membership. -/
theorem Node.strongInd (P : Node → Prop)
    (h : ∀ b cs ps, (∀ c ∈ cs, P c) → P (.mk b cs ps)) : ∀ n, P n
  | .mk b cs ps => h b cs ps (fun c hc =>
      have : sizeOf c < sizeOf (Node.mk b cs ps) := by
        have hm := List.sizeOf_lt_of_mem hc
        simp only [Node.mk.sizeOf_spec]
        omega
      Node.strongInd P h c)
termination_by n => sizeOf n

/-- Total mass of the particles reachable in a subtree. -/
def Node.totalMass (n : Node) : ℚ := (n.allParticles.map Particle.mass).sum

/-- Mass-weighted sum of displacements of the particles reachable in a
subtree. -/
def Node.weightedSum (n : Node) : Vec3 :=
  (n.allParticles.map (fun p => p.mass • p.displacement)).sum

theorem Node.allParticlesL_eq (cs : List Node) :
    Node.allParticlesL cs = (cs.map Node.allParticles).flatten := by
  induction cs with
  | nil => simp [Node.allParticlesL]
  | cons c rest ih => simp [Node.allParticlesL, ih]

theorem Node.mem_allParticles_of_child {p : Particle} {c : Node}
    {b : Box} {cs : List Node} {ps : List Particle}
    (hc : c ∈ cs) (hp : p ∈ c.allParticles) :
    p ∈ (Node.mk b cs ps).allParticles := by
  simp only [Node.allParticles, Node.allParticlesL_eq, List.mem_append,
    List.mem_flatten]
  exact Or.inr ⟨c.allParticles, List.mem_map_of_mem _ hc, hp⟩

theorem Node.pointMassChildren_spec (cs : List Node) (acc : PointMass) :
    Node.pointMassChildren cs acc =
      ⟨acc.mass + (cs.map (fun c => (Node.pointMass c).mass)).sum,
        acc.displacement +
          (cs.map (fun c =>
            (Node.pointMass c).mass • (Node.pointMass c).displacement)).sum⟩ := by
  induction cs generalizing acc with
  | nil => simp [Node.pointMassChildren]
  | cons c rest ih =>
    simp only [Node.pointMassChildren, ih, List.map_cons, List.sum_cons]
    exact congrArg₂ PointMass.mk (by ring) (by abel)

theorem Node.particleFold_spec (ps : List Particle) (acc : PointMass) :
    ps.foldl (fun acc q =>
        ⟨acc.mass + q.mass, acc.displacement + q.mass • q.displacement⟩) acc =
      ⟨acc.mass + (ps.map Particle.mass).sum,
        acc.displacement + (ps.map (fun p => p.mass • p.displacement)).sum⟩ := by
  induction ps generalizing acc with
  | nil => simp
  | cons q rest ih =>
    simp only [List.foldl_cons, ih, List.map_cons, List.sum_cons]
    exact congrArg₂ PointMass.mk (by ring) (by abel)

theorem Node.flatten_mass_sum (cs : List Node) :
    ((cs.map Node.allParticles).flatten.map Particle.mass).sum =
      (cs.map Node.totalMass).sum := by
  induction cs with
  | nil => simp
  | cons c rest ih =>
    simp only [List.map_cons, List.flatten_cons, List.map_append,
      List.sum_append, ih, List.sum_cons]
    simp [Node.totalMass]

theorem Node.flatten_weighted_sum (cs : List Node) :
    ((cs.map Node.allParticles).flatten.map (fun p => p.mass • p.displacement)).sum =
      (cs.map Node.weightedSum).sum := by
  induction cs with
  | nil => simp
  | cons c rest ih =>
    simp only [List.map_cons, List.flatten_cons, List.map_append,
      List.sum_append, ih, List.sum_cons]
    simp [Node.weightedSum]

theorem Node.totalMass_mk (b : Box) (cs : List Node) (ps : List Particle) :
    (Node.mk b cs ps).totalMass =
      (ps.map Particle.mass).sum + (cs.map Node.totalMass).sum := by
  simp only [Node.totalMass, Node.allParticles, Node.allParticlesL_eq,
    List.map_append, List.sum_append, Node.flatten_mass_sum]

theorem Node.weightedSum_mk (b : Box) (cs : List Node) (ps : List Particle) :
    (Node.mk b cs ps).weightedSum =
      (ps.map (fun p => p.mass • p.displacement)).sum + (cs.map Node.weightedSum).sum := by
  simp only [Node.weightedSum, Node.allParticles, Node.allParticlesL_eq,
    List.map_append, List.sum_append, Node.flatten_weighted_sum]

theorem weightedSum_eq_zero_of_masses_zero (l : List Particle)
    (hnn : ∀ p ∈ l, 0 ≤ p.mass) (hz : (l.map Particle.mass).sum = 0) :
    (l.map (fun p => p.mass • p.displacement)).sum = 0 := by
  induction l with
  | nil => simp
  | cons q rest ih =>
    simp only [List.map_cons, List.sum_cons] at hz ⊢
    have hq : 0 ≤ q.mass := hnn q (List.mem_cons_self q rest)
    have hrest : 0 ≤ (rest.map Particle.mass).sum := by
      apply List.sum_nonneg
      intro x hx
      rcases List.mem_map.mp hx with ⟨p, hp, rfl⟩
      exact hnn p (List.mem_cons_of_mem _ hp)
    have hq0 : q.mass = 0 := by linarith
    have hr0 : (rest.map Particle.mass).sum = 0 := by linarith
    rw [hq0, ih (fun p hp => hnn p (List.mem_cons_of_mem _ hp)) hr0]
    simp

/-- C6: `MassCalculator::Calculate` returns the total mass of the
particles in the subtree, its centre of mass times that total equals the
mass-weighted sum of displacements, and a zero total leaves the centre at
the zero accumulator — for any snapshot whose particle masses are
non-negative (the data model makes masses positive). -/
theorem massCalculator_totals : ∀ n : Node,
    (∀ p ∈ n.allParticles, 0 ≤ p.mass) →
    n.pointMass.mass = n.totalMass ∧
    n.pointMass.mass • n.pointMass.displacement = n.weightedSum ∧
    (n.pointMass.mass = 0 → n.pointMass.displacement = 0) := by
  intro n
  induction n using Node.strongInd with
  | _ b cs ps ih =>
    intro hnn
    have hchild : ∀ c ∈ cs,
        (Node.pointMass c).mass = c.totalMass ∧
        (Node.pointMass c).mass • (Node.pointMass c).displacement = c.weightedSum := by
      intro c hc
      have := ih c hc (fun p hp => hnn p (Node.mem_allParticles_of_child hc hp))
      exact ⟨this.1, this.2.1⟩
    have hm1 : cs.map (fun c => (Node.pointMass c).mass) = cs.map Node.totalMass :=
      List.map_congr_left (fun c hc => (hchild c hc).1)
    have hm2 : cs.map (fun c =>
          (Node.pointMass c).mass • (Node.pointMass c).displacement) =
        cs.map Node.weightedSum :=
      List.map_congr_left (fun c hc => (hchild c hc).2)
    have htm := Node.totalMass_mk b cs ps
    have hws := Node.weightedSum_mk b cs ps
    simp only [Node.pointMass, Node.pointMassChildren_spec, Node.particleFold_spec,
      hm1, hm2]
    split_ifs with h0
    · refine ⟨?_, ?_, fun hM => absurd hM h0⟩
      · dsimp only
        rw [htm]
        ring
      · dsimp only
        rw [smul_smul, mul_one_div_cancel h0, one_smul, hws]
        abel
    · push_neg at h0
      dsimp only at h0 ⊢
      have hS : (Node.mk b cs ps).weightedSum = 0 := by
        apply weightedSum_eq_zero_of_masses_zero _ hnn
        have htm0 : (Node.mk b cs ps).totalMass = 0 := by rw [htm]; linarith
        simpa [Node.totalMass] using htm0
      have hS2 : (ps.map (fun p => p.mass • p.displacement)).sum +
          (cs.map Node.weightedSum).sum = 0 := by rw [← hws]; exact hS
      refine ⟨?_, ?_, fun _ => ?_⟩
      · rw [htm]; ring
      · rw [h0, zero_smul]
        exact hS.symm
      · rw [zero_add, add_comm]
        exact hS2

/-- The node of the centre-of-mass witness: particles of mass 1 at the
origin and mass 3 at `(4,0,0)` (end-to-end scenario 6 of the spec). -/
def c6Node : Node :=
  .mk (Box.mk2 ⟨0, 0, 0⟩ ⟨10, 10, 10⟩) []
    [⟨1, 1, ⟨0, 0, 0⟩, ⟨0, 0, 0⟩⟩, ⟨2, 3, ⟨4, 0, 0⟩, ⟨0, 0, 0⟩⟩]

theorem massCalculator_totals_witness :
    (∀ p ∈ c6Node.allParticles, 0 ≤ p.mass) ∧
    (c6Node.pointMass.mass = c6Node.totalMass ∧
      c6Node.pointMass.mass • c6Node.pointMass.displacement = c6Node.weightedSum ∧
      (c6Node.pointMass.mass = 0 → c6Node.pointMass.displacement = 0)) :=
  have h : ∀ p ∈ c6Node.allParticles, 0 ≤ p.mass := by
    norm_num [c6Node, Node.allParticles, Node.allParticlesL]
  ⟨h, massCalculator_totals c6Node h⟩

theorem Vec3.normSq_nonneg (v : Vec3) : 0 ≤ v.normSq := by
  unfold Vec3.normSq
  nlinarith [mul_self_nonneg v.x, mul_self_nonneg v.y, mul_self_nonneg v.z]

theorem ltMulSqrtQ_iff_real (e θ s : ℚ) (hs : 0 ≤ s) :
    ltMulSqrtQ e θ s = true ↔ (e : ℝ) < (θ : ℝ) * Real.sqrt (s : ℝ) := by
  have hsR : (0:ℝ) ≤ (s:ℝ) := by exact_mod_cast hs
  have hd0 : 0 ≤ Real.sqrt (s:ℝ) := Real.sqrt_nonneg _
  have hd2 : Real.sqrt (s:ℝ) ^ 2 = (s:ℝ) := Real.sq_sqrt hsR
  set d := Real.sqrt (s:ℝ) with hdd
  unfold ltMulSqrtQ
  split_ifs with hθ
  · have hθR : (0:ℝ) ≤ (θ:ℝ) := by exact_mod_cast hθ
    have ht0 : 0 ≤ (θ:ℝ) * d := mul_nonneg hθR hd0
    simp only [Bool.or_eq_true, decide_eq_true_eq]
    constructor
    · rintro (h | h)
      · have heR : (e:ℝ) < 0 := by exact_mod_cast h
        linarith
      · have hR : (e:ℝ) * e < (θ:ℝ) * θ * s := by exact_mod_cast h
        have hsq : (e:ℝ) ^ 2 < ((θ:ℝ) * d) ^ 2 := by nlinarith [hd2]
        exact lt_of_pow_lt_pow_left 2 ht0 hsq
    · intro h
      rcases lt_or_le (e:ℝ) 0 with he | he
      · exact Or.inl (by exact_mod_cast he)
      · refine Or.inr ?_
        have hsq := pow_lt_pow_left h he two_ne_zero
        have hR : (e:ℝ) * e < (θ:ℝ) * θ * s := by nlinarith [hd2]
        exact_mod_cast hR
  · push_neg at hθ
    have hθR : (θ:ℝ) < 0 := by exact_mod_cast hθ
    have ht0 : (θ:ℝ) * d ≤ 0 := mul_nonpos_iff.mpr (Or.inr ⟨le_of_lt hθR, hd0⟩)
    simp only [Bool.and_eq_true, decide_eq_true_eq]
    constructor
    · rintro ⟨h1, h2⟩
      have h1R : (e:ℝ) < 0 := by exact_mod_cast h1
      have h2R : (θ:ℝ) * θ * s < (e:ℝ) * e := by exact_mod_cast h2
      have hsq : (-((θ:ℝ) * d)) ^ 2 < (-(e:ℝ)) ^ 2 := by nlinarith [hd2]
      have hlt := lt_of_pow_lt_pow_left 2 (by linarith : (0:ℝ) ≤ -(e:ℝ)) hsq
      linarith
    · intro h
      have h1R : (e:ℝ) < 0 := lt_of_lt_of_le h ht0
      refine ⟨by exact_mod_cast h1R, ?_⟩
      have hlt : -((θ:ℝ) * d) < -(e:ℝ) := by linarith
      have hsq := pow_lt_pow_left hlt (by linarith : (0:ℝ) ≤ -((θ:ℝ) * d)) two_ne_zero
      have hR : (θ:ℝ) * θ * s < (e:ℝ) * e := by nlinarith [hd2]
      exact_mod_cast hR

theorem Node.particleAccum_spec (F : Particle → Particle → Vec3) (p : Particle) :
    ∀ (ps : List Particle) (acc : Vec3),
    ps.foldl (fun a q => if q.id ≠ p.id then a + F q p else a) acc =
      acc + ((ps.filter (fun q => decide (q.id ≠ p.id))).map (fun q => F q p)).sum := by
  intro ps
  induction ps with
  | nil => intro acc; simp
  | cons q rest ih =>
    intro acc
    by_cases h : q.id = p.id
    · have h1 : List.foldl (fun a q => if q.id ≠ p.id then a + F q p else a) acc (q :: rest) =
          List.foldl (fun a q => if q.id ≠ p.id then a + F q p else a) acc rest := by
        rw [List.foldl_cons]
        congr 1
        simp [h]
      have h2 : (q :: rest).filter (fun q => decide (q.id ≠ p.id)) =
          rest.filter (fun q => decide (q.id ≠ p.id)) := by
        rw [List.filter_cons]
        simp [h]
      rw [h1, h2, ih]
    · have h1 : List.foldl (fun a q => if q.id ≠ p.id then a + F q p else a) acc (q :: rest) =
          List.foldl (fun a q => if q.id ≠ p.id then a + F q p else a) (acc + F q p) rest := by
        rw [List.foldl_cons]
        congr 1
        simp [h]
      have h2 : (q :: rest).filter (fun q => decide (q.id ≠ p.id)) =
          q :: rest.filter (fun q => decide (q.id ≠ p.id)) := by
        rw [List.filter_cons]
        simp [h]
      rw [h1, h2, ih, List.map_cons, List.sum_cons]
      abel

theorem Node.addAccelChildren_general (F : Particle → Particle → Vec3)
    (θ : ℚ) (p : Particle) (cs : List Node)
    (h : ∀ c ∈ cs, ∀ acc, Node.addAccel F θ c p acc = acc + Node.addAccel F θ c p 0) :
    ∀ acc, Node.addAccelChildren F θ cs p acc =
      acc + (cs.map (fun c => Node.addAccel F θ c p 0)).sum := by
  induction cs with
  | nil => intro acc; simp [Node.addAccelChildren]
  | cons c rest ih =>
    intro acc
    have hrest := ih (fun c' hc' => h c' (List.mem_cons_of_mem _ hc'))
    simp only [Node.addAccelChildren, hrest]
    rw [h c (List.mem_cons_self c rest) acc]
    simp only [List.map_cons, List.sum_cons]
    abel

theorem Node.addAccel_general (F : Particle → Particle → Vec3) (θ : ℚ) :
    ∀ (n : Node) (p : Particle) (acc : Vec3),
    Node.addAccel F θ n p acc =
      acc + ((if shouldApproximate θ p.displacement n.bounds then
          F (pointMassParticle n.pointMass) p else 0) +
        ((n.particles.filter (fun q => decide (q.id ≠ p.id))).map (fun q => F q p)).sum +
        (n.children.map (fun c => Node.addAccel F θ c p 0)).sum) := by
  intro n
  induction n using Node.strongInd with
  | _ b cs ps ih =>
    intro p acc
    have hshift : ∀ c ∈ cs, ∀ a, Node.addAccel F θ c p a = a + Node.addAccel F θ c p 0 := by
      intro c hc a
      rw [ih c hc p a, ih c hc p 0]
      abel
    have hchildren := Node.addAccelChildren_general F θ p cs hshift
    have hif : ∀ a : Vec3,
        (if shouldApproximate θ p.displacement b then
          a + F (pointMassParticle (Node.mk b cs ps).pointMass) p else a) =
        a + (if shouldApproximate θ p.displacement b then
          F (pointMassParticle (Node.mk b cs ps).pointMass) p else 0) := by
      intro a
      split <;> simp
    simp only [Node.addAccel, hif, Node.particleAccum_spec, hchildren,
      Node.bounds, Node.children, Node.particles]
    abel

theorem Node.addAccel_structure (F : Particle → Particle → Vec3) (θ : ℚ)
    (b : Box) (cs : List Node) (ps : List Particle) (p : Particle) :
    Node.addAccel F θ (.mk b cs ps) p 0 =
      (if shouldApproximate θ p.displacement b then
        F (pointMassParticle (Node.mk b cs ps).pointMass) p else 0) +
      ((ps.filter (fun q => decide (q.id ≠ p.id))).map (fun q => F q p)).sum +
      (cs.map (fun c => Node.addAccel F θ c p 0)).sum := by
  rw [Node.addAccel_general F θ (.mk b cs ps) p 0]
  simp only [Node.bounds, Node.children, Node.particles]
  abel

/-- C5: the walk rule of `AddAcceleration` at every node: the aggregate
point-mass contribution is added exactly when the s/d criterion fires on
some axis (the criterion being `extent < θ · d` with `d` the Euclidean
distance from the subject to the node's centre — stated over the reals),
and regardless of the criterion the contribution of every direct particle
other than the subject (by handle identity) is added and the walk recurses
into every child, the three groups summing together. -/
theorem barnesHut_walk_adds_terms (F : Particle → Particle → Vec3) (θ : ℚ)
    (n : Node) (p : Particle) :
    Node.addAccel F θ n p 0 =
      (if shouldApproximate θ p.displacement n.bounds then
        F (pointMassParticle n.pointMass) p else 0) +
      ((n.particles.filter (fun q => decide (q.id ≠ p.id))).map (fun q => F q p)).sum +
      (n.children.map (fun c => Node.addAccel F θ c p 0)).sum ∧
    (shouldApproximate θ p.displacement n.bounds = true ↔
      ∃ e ∈ [n.bounds.extents.x, n.bounds.extents.y, n.bounds.extents.z],
        (e : ℝ) < (θ : ℝ) *
          Real.sqrt ((Vec3.normSq (p.displacement - n.bounds.centre) : ℚ) : ℝ)) := by
  obtain ⟨b, cs, ps⟩ := n
  constructor
  · simpa [Node.bounds, Node.children, Node.particles] using
      Node.addAccel_structure F θ b cs ps p
  · have hs := Vec3.normSq_nonneg (p.displacement - (Node.mk b cs ps).bounds.centre)
    simp only [shouldApproximate, Bool.or_eq_true, List.mem_cons,
      List.not_mem_nil, or_false, exists_eq_or_imp, exists_eq_left]
    rw [ltMulSqrtQ_iff_real _ _ _ hs, ltMulSqrtQ_iff_real _ _ _ hs,
      ltMulSqrtQ_iff_real _ _ _ hs]
    tauto

mutual

/-- Every node in the subtree has strictly positive extents on every axis,
as `ValidateExtents` guarantees for every box built by the two-argument
constructor. -/
def Node.posExtents : Node → Bool
  | .mk b cs _ =>
    decide (0 < b.extents.x) && decide (0 < b.extents.y) &&
      decide (0 < b.extents.z) && Node.posExtentsL cs

/-- `Node.posExtents` over a list of children. -/
def Node.posExtentsL : List Node → Bool
  | [] => true
  | c :: rest => Node.posExtents c && Node.posExtentsL rest

end

theorem Node.posExtentsL_forall {cs : List Node} (h : Node.posExtentsL cs = true) :
    ∀ c ∈ cs, Node.posExtents c = true := by
  induction cs with
  | nil => intro c hc; cases hc
  | cons c rest ih =>
    simp only [Node.posExtentsL, Bool.and_eq_true] at h
    intro c' hc'
    rcases List.mem_cons.mp hc' with rfl | hm
    · exact h.1
    · exact ih h.2 c' hm

theorem shouldApproximate_zero_of_pos (x : Vec3) (b : Box)
    (hx : 0 < b.extents.x) (hy : 0 < b.extents.y) (hz : 0 < b.extents.z) :
    shouldApproximate 0 x b = false := by
  have key : ∀ e s : ℚ, 0 < e → ltMulSqrtQ e 0 s = false := by
    intro e s he
    simp only [ltMulSqrtQ, le_refl, if_pos, Bool.or_eq_false_iff,
      decide_eq_false_iff_not, not_lt]
    constructor
    · linarith
    · nlinarith
  simp [shouldApproximate, key _ _ hx, key _ _ hy, key _ _ hz]

theorem Node.filter_map_sum_allParticlesL (f : Particle → Bool)
    (g : Particle → Vec3) : ∀ cs : List Node,
    (((Node.allParticlesL cs).filter f).map g).sum =
      (cs.map (fun c => ((c.allParticles.filter f).map g).sum)).sum := by
  intro cs
  induction cs with
  | nil => simp [Node.allParticlesL]
  | cons c rest ih =>
    simp [Node.allParticlesL, List.filter_append, List.map_append,
      List.sum_append, ih]

theorem Node.addAccel_zero_threshold (F : Particle → Particle → Vec3)
    (p : Particle) : ∀ n : Node, Node.posExtents n = true →
    Node.addAccel F 0 n p 0 =
      ((n.allParticles.filter (fun q => decide (q.id ≠ p.id))).map (fun q => F q p)).sum := by
  intro n
  induction n using Node.strongInd with
  | _ b cs ps ih =>
    intro hpos
    simp only [Node.posExtents, Bool.and_eq_true, decide_eq_true_eq] at hpos
    obtain ⟨⟨⟨hx, hy⟩, hz⟩, hcs⟩ := hpos
    have happrox := shouldApproximate_zero_of_pos p.displacement b hx hy hz
    have hchildren : cs.map (fun c => Node.addAccel F 0 c p 0) =
        cs.map (fun c =>
          ((c.allParticles.filter (fun q => decide (q.id ≠ p.id))).map (fun q => F q p)).sum) :=
      List.map_congr_left (fun c hc =>
        ih c hc (Node.posExtentsL_forall hcs c hc))
    rw [Node.addAccel_structure, happrox, hchildren]
    simp only [Bool.false_eq_true, if_false, zero_add, Node.allParticles,
      List.filter_append, List.map_append, List.sum_append,
      Node.filter_map_sum_allParticlesL]

/-- C4: with threshold 0 the evaluator degenerates to direct summation.
For a tree whose boxes all have positive extents (as the box constructor
enforces) and whose stored particles are pairwise distinct handles,
`Acceleration(p)` is exactly the sum of the field contributions of every
stored particle other than `p` itself (by handle identity) — and the s/d
criterion never fires, so no point-mass term is ever added. -/
theorem acceleration_zero_threshold_direct_sum (F : Particle → Particle → Vec3)
    (t : Octree) (p : Particle)
    (hpos : Node.posExtents t.root = true)
    (hnodup : (t.root.allParticles.map Particle.id).Nodup) :
    BarnesHut.acceleration ⟨0, some t, some F⟩ (some p) =
      ((t.root.allParticles.filter (fun q => decide (q.id ≠ p.id))).map
        (fun q => F q p)).sum ∧
    ∀ b : Box, 0 < b.extents.x → 0 < b.extents.y → 0 < b.extents.z →
      shouldApproximate 0 p.displacement b = false := by
  constructor
  · simpa [BarnesHut.acceleration] using
      Node.addAccel_zero_threshold F p t.root hpos
  · intro b hx hy hz
    exact shouldApproximate_zero_of_pos p.displacement b hx hy hz

/-- The field of the direct-summation witness: the displacement difference
between source and subject. -/
def c4F (q p : Particle) : Vec3 := q.displacement - p.displacement

/-- The subject particle of the direct-summation witness. -/
def c4P : Particle := ⟨1, 1, ⟨1/2, 0, 0⟩, ⟨0, 0, 0⟩⟩

/-- The tree of the direct-summation witness: the subject and one other
particle, both stored at the root. -/
def c4Tree : Octree :=
  { root := .mk (Box.mk2 ⟨0, 0, 0⟩ ⟨2, 2, 2⟩) []
      [c4P, ⟨2, 1, ⟨-(1/2), 0, 0⟩, ⟨0, 0, 0⟩⟩],
    looseness := 1, minWidth := 1, capacity := 8, growthLimit := 10,
    shrinkLimit := 10, resized := 0 }

theorem acceleration_zero_threshold_direct_sum_witness :
    (Node.posExtents c4Tree.root = true ∧
      (c4Tree.root.allParticles.map Particle.id).Nodup) ∧
    (BarnesHut.acceleration ⟨0, some c4Tree, some c4F⟩ (some c4P) =
      ((c4Tree.root.allParticles.filter (fun q => decide (q.id ≠ c4P.id))).map
        (fun q => c4F q c4P)).sum ∧
    ∀ b : Box, 0 < b.extents.x → 0 < b.extents.y → 0 < b.extents.z →
      shouldApproximate 0 c4P.displacement b = false) :=
  have h1 : Node.posExtents c4Tree.root = true := by
    norm_num [c4Tree, Node.posExtents, Node.posExtentsL, Box.mk2, Vec3.scale]
  have h2 : (c4Tree.root.allParticles.map Particle.id).Nodup := by
    norm_num [c4Tree, c4P, Node.allParticles, Node.allParticlesL]
  ⟨⟨h1, h2⟩, acceleration_zero_threshold_direct_sum c4F c4Tree c4P h1 h2⟩

end Gravity
